import Mathlib

/-!
Verification development for the fin-news-mvp chunking and filtered-retrieval
core.  The Python sources are shallowly embedded:

* `apps/index/chunk.py` is modelled at the token level: a piece of text is
  represented by its token sequence (`List Tok`) under the fixed `cl100k_base`
  encoding, so `_tok_len` is `List.length`, `_tail_tokens` keeps a suffix, and
  the space-join of sentence strings is token-sequence concatenation (the
  accounting that `split_text` itself performs).  Sentence splitting
  (`_split_sentences`), `clean_body` and the title prepend only determine which
  sentence sequence reaches the main loop, so theorems quantify over all
  sentence sequences.
* `apps/index/faiss_store.py` is modelled with exact integer vectors; the FAISS
  flat inner-product index is a list of vectors in insertion order, and exact
  search ranks rows by descending dot product with ties broken by the smaller
  row id, padding with id -1 when fewer rows than `k` exist (FAISS flat-index
  behaviour).  `pickle` and `faiss.write_index`/`read_index` are exact
  serializations, so the saved files carry the vectors and metadata verbatim.
* `apps/service/search_api.py`: Python dicts are association lists keyed by
  first match (keys are unique by construction).  A Python `set` of row
  indices is represented by its contents as a strictly ascending
  duplicate-free list — contents are independent of iteration order, and the
  final `sorted(...)` (insertion sort here) erases order everywhere except in
  one place: the cap slice `list(candidates)[:5000]`.  That one
  order-sensitive step goes through `py_set_iter`, which models CPython set
  iteration for non-negative int keys: elements are visited in hash-table
  slot order, the home slot of an int being the value modulo the table size
  (`hash(x) = x`), with the table size given by the growth recurrence of
  CPython setobject.c (`py_set_table_size`).  Timestamps are pre-parsed to a
  UTC day number (an integer), which is what `%Y-%m-%d` keys denote, with
  `none` standing for a missing or unparseable `published_utc`.
-/

namespace FinNews

/-- A token id of the fixed `cl100k_base` encoding. -/
abbrev Tok := ℕ

/-- Model of `_tok_len`: the number of tokens of a text. -/
def tok_len (t : List Tok) : ℕ := t.length

/-- Model of `_tail_tokens`: `ENC.decode(toks[max(0, len(toks)-n_tokens):])`,
the trailing `n` tokens of a text (truncated subtraction is `max 0`). -/
def tail_tokens (t : List Tok) (n : ℕ) : List Tok := t.drop (t.length - n)

/-- Model of `" ".join(cur)` at the token level: concatenation of the member
texts (the separator spaces are absorbed by the leading-space convention of
the encoding, which is also the accounting `split_text` itself uses). -/
def join_ws (cur : List (List Tok)) : List Tok := cur.flatten

/-- Configuration of `TextChunker.__init__`. -/
structure ChunkerConfig where
  target : ℕ
  max : ℕ
  overlap : ℕ
  min_tokens : ℕ
deriving Repr, DecidableEq

/-- Model of `_generate_chunk_id`: the code hashes the string
`f"{doc_id}_{chunk_index}"` with SHA-256 and keeps 16 hex digits; the digest
function is opaque here, so the hash input string stands in for the digest. -/
def generate_chunk_id (doc_id : String) (chunk_index : ℕ) : String :=
  doc_id ++ "_" ++ toString chunk_index

/-- The `Chunk` dataclass of `apps/index/chunk.py` (its `metadata` dict holds
only the configured overlap). -/
structure Chunk where
  id : String
  doc_id : String
  chunk_index : ℕ
  text : List Tok
  tokens : ℕ
  overlap_tokens : ℕ
deriving Repr, DecidableEq, Inhabited

/-- Model of `TextChunker._create_chunk`. -/
def ChunkerConfig.create_chunk (cfg : ChunkerConfig) (text : List Tok)
    (doc_id : String) (chunk_index : ℕ) : Chunk :=
  { id := generate_chunk_id doc_id chunk_index
    doc_id := doc_id
    chunk_index := chunk_index
    text := text
    tokens := tok_len text
    overlap_tokens := cfg.overlap }

/-- The mutable state of the sentence-accumulation loop in `split_text`:
emitted chunks, the current buffer `cur`, its running token count `cur_tok`,
and the running chunk index `idx`. -/
structure SegState where
  chunks : List Chunk
  cur : List (List Tok)
  cur_tok : ℕ
  idx : ℕ
deriving Repr, DecidableEq

/-- Model of the `for s in sents` loop of `TextChunker.split_text`: while the
buffer is non-empty and adding the next sentence would push the running count
over `max`, the buffer is flushed as a chunk and the new buffer is seeded with
the overlap tail of the flushed text. -/
def ChunkerConfig.split_loop (cfg : ChunkerConfig) (doc_id : String) :
    List (List Tok) → SegState → SegState
  | [], st => st
  | s :: rest, st =>
    let sl := tok_len s
    if st.cur ≠ [] ∧ cfg.max < st.cur_tok + sl then
      let chunk_text := join_ws st.cur
      let chunks := st.chunks ++ [cfg.create_chunk chunk_text doc_id st.idx]
      if 0 < cfg.overlap then
        let tail := tail_tokens chunk_text cfg.overlap
        cfg.split_loop doc_id rest ⟨chunks, [tail, s], tok_len tail + sl, st.idx + 1⟩
      else
        cfg.split_loop doc_id rest ⟨chunks, [s], sl, st.idx + 1⟩
    else
      cfg.split_loop doc_id rest ⟨st.chunks, st.cur ++ [s], st.cur_tok + sl, st.idx⟩

/-- Model of `TextChunker._handle_orphan_chunks`.  Both `safe_prev_floor =
max(0, target - 40)` and `can_give = max(0, prev.tokens - floor)` use
`max 0`, which truncated natural subtraction provides; the borrowed text is
the trailing `give + overlap` tokens of the penultimate chunk, which the
Python slice `prev.text[:-len(borrowed_text)]` removes from the donor. -/
def ChunkerConfig.handle_orphan_chunks (cfg : ChunkerConfig)
    (chunks : List Chunk) : List Chunk :=
  if chunks.length < 2 then chunks
  else
    let last_chunk := chunks.getLastD default
    let prev_chunk := chunks.dropLast.getLastD default
    if last_chunk.tokens < cfg.min_tokens then
      let need := cfg.min_tokens - last_chunk.tokens
      let safe_prev_floor := cfg.target - 40
      let can_give := prev_chunk.tokens - safe_prev_floor
      let give := min need can_give
      if 0 < give then
        let borrowed_text := tail_tokens prev_chunk.text (give + cfg.overlap)
        let new_last_text := borrowed_text ++ last_chunk.text
        let new_prev_text := prev_chunk.text.take (prev_chunk.text.length - borrowed_text.length)
        let prev2 := { prev_chunk with text := new_prev_text, tokens := tok_len new_prev_text }
        let last2 := { last_chunk with text := new_last_text, tokens := tok_len new_last_text }
        if prev2.tokens + last2.tokens ≤ cfg.max then
          let merged_text := prev2.text ++ last2.text
          chunks.dropLast.dropLast ++ [{ prev2 with text := merged_text, tokens := tok_len merged_text }]
        else
          chunks.dropLast.dropLast ++ [prev2, last2]
      else chunks
    else chunks

/-- Model of the final `for i, c in enumerate(chunks)` pass of `split_text`:
reassign `chunk_index` sequentially and recompute `tokens` from the text. -/
def renumber_chunks : ℕ → List Chunk → List Chunk
  | _, [] => []
  | i, c :: cs => { c with chunk_index := i, tokens := tok_len c.text } :: renumber_chunks (i + 1) cs

/-- Model of `TextChunker.split_text` from the sentence list onward
(`clean_body`, the title prepend and `_split_sentences` only determine which
sentence sequence `sents` reaches this code). -/
def ChunkerConfig.split_text (cfg : ChunkerConfig) (sents : List (List Tok))
    (doc_id : String) : List Chunk :=
  let st := cfg.split_loop doc_id sents ⟨[], [], 0, 0⟩
  let chunks :=
    if st.cur ≠ [] then
      st.chunks ++ [cfg.create_chunk (join_ws st.cur) doc_id st.idx]
    else st.chunks
  renumber_chunks 0 (cfg.handle_orphan_chunks chunks)

/-! ## The FAISS vector store (`apps/index/faiss_store.py`) -/

/-- An embedding vector with exact components. -/
abbrev Vec := List ℤ

/-- The metadata dict attached to one row of the store (the fields built by
`VectorStoreManager.add_document_chunks`).  `published_at` is the pre-parsed
UTC timestamp at day granularity, `none` when absent. -/
structure StoreMeta where
  doc_id : String
  chunk_id : String
  chunk_index : ℕ
  text : List Tok
  tickers : List String
  published_at : Option ℤ
  source : String
  url : String
deriving Repr, DecidableEq, Inhabited

/-- The `FAISSStore` object: a flat inner-product index (vectors in insertion
order) and the parallel metadata list. -/
structure FAISSStore where
  dimension : ℕ
  index : List Vec
  metadata : List StoreMeta
deriving Repr, DecidableEq

/-- `index.ntotal`. -/
def FAISSStore.ntotal (s : FAISSStore) : ℕ := s.index.length

/-- Model of `FAISSStore.add_vectors`: the length check precedes any mutation,
so a failing call returns the error without touching the store. -/
def FAISSStore.add_vectors (s : FAISSStore) (vectors : List Vec)
    (metadata_list : List StoreMeta) : Except String FAISSStore :=
  if vectors.length ≠ metadata_list.length then
    .error "Vectors and metadata must have same length"
  else
    .ok { s with index := s.index ++ vectors, metadata := s.metadata ++ metadata_list }

/-- Model of `FAISSStore.get_metadata`: the Python guard `0 <= index <
len(self.metadata)` over a possibly negative argument. -/
def FAISSStore.get_metadata (s : FAISSStore) (i : ℤ) : Option StoreMeta :=
  if h : 0 ≤ i ∧ i < (s.metadata.length : ℤ) then
    some (s.metadata.get ⟨i.toNat, by omega⟩)
  else none

/-- The pair of files written by `FAISSStore.save_index`: the FAISS index file
and the pickled metadata list (both serializations are exact). -/
structure SavedFiles where
  index_file : List Vec
  metadata_file : List StoreMeta
deriving Repr, DecidableEq

/-- Model of `FAISSStore.save_index`. -/
def FAISSStore.save_index (s : FAISSStore) : SavedFiles :=
  { index_file := s.index, metadata_file := s.metadata }

/-- Model of `FAISSStore._load_or_create_index`: when both files exist they
are read back, otherwise a fresh empty index is created. -/
def load_or_create_index (dimension : ℕ) (files : Option SavedFiles) : FAISSStore :=
  match files with
  | some f => { dimension := dimension, index := f.index_file, metadata := f.metadata_file }
  | none => { dimension := dimension, index := [], metadata := [] }

/-- Inner product of two vectors. -/
def dot (u v : Vec) : ℤ := (List.zipWith (· * ·) u v).sum

/-- Each stored row paired with its score against the query and its row id. -/
def score_rows (index : List Vec) (q : Vec) : List (ℤ × ℤ) :=
  index.mapIdx fun i v => (dot q v, (i : ℤ))

/-- FAISS flat-index ranking: higher score first, ties broken by the smaller
row id. -/
def faiss_rank (a b : ℤ × ℤ) : Prop := b.1 < a.1 ∨ (a.1 = b.1 ∧ a.2 ≤ b.2)

instance : DecidableRel faiss_rank := fun a b => by
  unfold faiss_rank; infer_instance

/-- Model of `self.index.search(query_vector, k)` on a flat inner-product
index: the `k` best (score, row id) pairs, padded with id `-1` entries when
fewer than `k` rows exist. -/
def faiss_topk (index : List Vec) (q : Vec) (k : ℕ) : List (ℤ × ℤ) :=
  ((score_rows index q).insertionSort faiss_rank).take k
    ++ List.replicate (k - index.length) ((0 : ℤ), (-1 : ℤ))

/-- Python list indexing `l[i]`, including the negative-index convention;
`none` is an `IndexError`. -/
def py_get {α : Type} (l : List α) (i : ℤ) : Option α :=
  let j := if i < 0 then (l.length : ℤ) + i else i
  if h : 0 ≤ j ∧ j < (l.length : ℤ) then some (l.get ⟨j.toNat, by omega⟩) else none

/-- The post-search filtering loop of `FAISSStore.search`: each of the
returned pairs is kept when its id passes `idx < len(self.metadata)` and the
predicate accepts `self.metadata[idx]`; a raised `IndexError` aborts the
call. -/
def filter_results (metadata : List StoreMeta) (f : StoreMeta → Bool) :
    List (ℤ × ℤ) → Except String (List (ℤ × ℤ))
  | [] => .ok []
  | (d, i) :: rest =>
    if i < (metadata.length : ℤ) then
      match py_get metadata i with
      | none => .error "IndexError: list index out of range"
      | some m =>
        match filter_results metadata f rest with
        | .error e => .error e
        | .ok tail => .ok (if f m then (d, i) :: tail else tail)
    else
      filter_results metadata f rest

/-- Model of `FAISSStore.search`: an unfiltered top-`k` similarity search,
after which the optional predicate is applied to those `k` results only. -/
def FAISSStore.search (s : FAISSStore) (query_vector : Vec) (k : ℕ)
    (filter_func : Option (StoreMeta → Bool)) : Except String (List (ℤ × ℤ)) :=
  let res := faiss_topk s.index query_vector k
  match filter_func with
  | none => .ok res
  | some f => filter_results s.metadata f res

/-- Model of `FAISSStore.search_by_ticker`. -/
def FAISSStore.search_by_ticker (s : FAISSStore) (query_vector : Vec)
    (ticker : String) (k : ℕ) : Except String (List (ℤ × ℤ)) :=
  s.search query_vector k (some fun m => m.tickers.contains ticker)

/-! ## The search service (`apps/service/search_api.py`) -/

/-- One entry of `self.row_meta`, as built in `_load_latest_artifacts` step 8.
`published_utc` is the pre-parsed UTC day number, `none` when the stored
string is missing or unparseable. -/
structure RowMeta where
  chunk_id : String
  doc_id : String
  title : String
  tickers : List String
  published_utc : Option ℤ
  url : String
  tokens : ℕ
  chunk_index : ℕ
deriving Repr, DecidableEq, Inhabited

/-- Python dict lookup on an association list (keys are unique by
construction, so first match is the match). -/
def dict_find {κ α : Type} [DecidableEq κ] : List (κ × α) → κ → Option α
  | [], _ => none
  | (k, v) :: rest, key => if key = k then some v else dict_find rest key

/-- The dict idiom of `_build_inverted_indices`: create the key with an empty
bucket when absent, then append the row index to its bucket. -/
def dict_append {κ : Type} [DecidableEq κ] :
    List (κ × List ℕ) → κ → ℕ → List (κ × List ℕ)
  | [], key, v => [(key, [v])]
  | (k, l) :: rest, key, v =>
    if key = k then (k, l ++ [v]) :: rest else (k, l) :: dict_append rest key v

/-- The bucket stored under a key (empty when the key is absent); used to
state lookup properties. -/
def dict_bucket {κ : Type} [DecidableEq κ] (d : List (κ × List ℕ)) (key : κ) : List ℕ :=
  (dict_find d key).getD []

/-- Model of the ticker half of `SearchService._build_inverted_indices`:
row indices are appended to the bucket of each ticker exactly as the metadata
spells it (no case normalization). -/
def build_inv_ticker (row_meta : List (ℕ × RowMeta)) : List (String × List ℕ) :=
  row_meta.foldl (fun d r => r.2.tickers.foldl (fun d t => dict_append d t r.1) d) []

/-- Model of the date half of `SearchService._build_inverted_indices`: rows
whose `published_utc` parses are appended to the bucket of their UTC day;
unparseable rows are silently skipped. -/
def build_inv_date (row_meta : List (ℕ × RowMeta)) : List (ℤ × List ℕ) :=
  row_meta.foldl
    (fun d r =>
      match r.2.published_utc with
      | some day => dict_append d day r.1
      | none => d)
    []

/-- Insertion into the canonical contents representation of a Python `set`
of row indices: a strictly ascending duplicate-free list.  Contents do not
depend on iteration order; iteration order is modelled separately by
`py_set_iter`. -/
def set_insert : List ℕ → ℕ → List ℕ
  | [], x => [x]
  | y :: ys, x =>
    if x < y then x :: y :: ys
    else if x = y then y :: ys
    else y :: set_insert ys x

/-- `candidates.update(rows)`. -/
def set_update (s : List ℕ) (xs : List ℕ) : List ℕ := xs.foldl set_insert s

/-- The doubling search of CPython `set_table_resize`: the smallest power of
two, at least `cur`, strictly greater than `minused` (`while (newsize <=
minused) newsize <<= 1` starting from `PySet_MINSIZE = 8`); the fuel bounds
the doublings and is always ample. -/
def py_next_table_size : ℕ → ℕ → ℕ → ℕ
  | 0, cur, _ => cur
  | fuel + 1, cur, minused =>
    if minused < cur then cur else py_next_table_size fuel (2 * cur) minused

/-- One insertion of a new key into a CPython set, on the state (table size,
fill).  Mirroring `set_add_entry`/`set_table_resize` of setobject.c: fill is
incremented, then the table is resized when `fill*5 >= mask*3`
(`mask = size - 1`) to the smallest power of two above `used*4` (`used*2`
beyond 50000 entries); with no deletions, `used = fill`. -/
def py_set_insert_grow (st : ℕ × ℕ) : ℕ × ℕ :=
  let fill := st.2 + 1
  let size := st.1
  if 3 * (size - 1) ≤ 5 * fill then
    let minused := if 50000 < fill then 2 * fill else 4 * fill
    (py_next_table_size (minused + 1) 8 minused, fill)
  else (size, fill)

/-- (table size, fill) of a CPython set after inserting `n` distinct keys
one at a time into a fresh set, as `candidates.update(...)` does. -/
def py_set_state : ℕ → ℕ × ℕ
  | 0 => (8, 0)
  | n + 1 => py_set_insert_grow (py_set_state n)

/-- The hash-table size of a CPython set holding `n` distinct keys. -/
def py_set_table_size (n : ℕ) : ℕ := (py_set_state n).1

/-- CPython set iteration order for non-negative int keys, as a relation: by
home slot (`x % table_size`, since `hash(x) = x` and the table size is a
power of two), with the value as a tie-break.  Distinct keys share a home
slot only under collision, where real iteration order depends on probing
history; no theorem in this file exercises the tie-break — in both the dense
regime and the counterexample every element occupies a distinct home slot. -/
def py_slot_le (tsize : ℕ) (a b : ℕ) : Prop :=
  a % tsize < b % tsize ∨ (a % tsize = b % tsize ∧ a ≤ b)

instance (tsize : ℕ) : DecidableRel (py_slot_le tsize) := fun a b => by
  unfold py_slot_le
  infer_instance

instance (tsize : ℕ) : IsTotal ℕ (py_slot_le tsize) :=
  ⟨fun a b => by unfold py_slot_le; omega⟩

instance (tsize : ℕ) : IsTrans ℕ (py_slot_le tsize) :=
  ⟨fun a b c h1 h2 => by unfold py_slot_le at *; omega⟩

instance (tsize : ℕ) : IsAntisymm ℕ (py_slot_le tsize) :=
  ⟨fun a b h1 h2 => by unfold py_slot_le at *; omega⟩

/-- Model of `list(candidates)` on a set of row indices: the elements in
CPython iteration order, i.e. by ascending home slot. -/
def py_set_iter (s : List ℕ) : List ℕ :=
  s.insertionSort (py_slot_le (py_set_table_size s.length))

/-- The `self.config` dict saved at the end of `_load_latest_artifacts`
(bucket, region and key strings are constants irrelevant to the claims). -/
structure ServiceConfig where
  version : String
  dim : ℕ
  ntotal : ℕ
deriving Repr, DecidableEq, Inhabited

/-- The state of a constructed `SearchService`. -/
structure SearchService where
  index : List Vec
  vecs : Option (List Vec)
  row_meta : List (ℕ × RowMeta)
  inv_ticker : List (String × List ℕ)
  inv_date : List (ℤ × List ℕ)
  config : ServiceConfig
deriving Repr, DecidableEq

/-- The ticker loop of `_get_candidate_rows` step 1: union in the bucket of
every requested ticker that is present in the inverted index (folding over an
empty or absent ticker list is the identity, as in the guarded Python loop). -/
def ticker_candidates (svc : SearchService) (tickers : List String)
    (c : List ℕ) : List ℕ :=
  tickers.foldl
    (fun acc t =>
      match dict_find svc.inv_ticker t with
      | some rows => set_update acc rows
      | none => acc)
    c

/-- The day offsets `range(-time_window_days, time_window_days + 1)`. -/
def window_offsets (w : ℤ) : List ℤ :=
  (List.range (2 * w + 1).toNat).map fun j => -w + (j : ℤ)

/-- The date loop of `_get_candidate_rows` step 2: for a set query date,
union in the bucket of every calendar day within the window; `none` models a
missing (or unparseable, hence warned-and-skipped) `published_utc`. -/
def date_candidates (svc : SearchService) (published_utc : Option ℤ) (w : ℤ)
    (c : List ℕ) : List ℕ :=
  match published_utc with
  | none => c
  | some qd =>
    (window_offsets w).foldl
      (fun acc i =>
        match dict_find svc.inv_date (qd + i) with
        | some rows => set_update acc rows
        | none => acc)
      c

/-- Steps 1-2 of `_get_candidate_rows`: the union of the requested ticker
buckets and the date-window buckets. -/
def raw_candidates (svc : SearchService) (tickers : List String)
    (published_utc : Option ℤ) (w : ℤ) : List ℕ :=
  date_candidates svc published_utc w (ticker_candidates svc tickers [])

/-- Step 3 of `_get_candidate_rows`: an empty union falls back to all rows of
the index. -/
def candidate_pool (svc : SearchService) (tickers : List String)
    (published_utc : Option ℤ) (w : ℤ) : List ℕ :=
  let c := raw_candidates svc tickers published_utc w
  if c = [] then List.range svc.index.length else c

/-- Model of `SearchService._get_candidate_rows`: steps 1-3 above, then the
cap `set(list(candidates)[:5000])` — the first 5000 elements in set
iteration order (`py_set_iter`), collected into a set again — and the final
`sorted(list(candidates))`. -/
def get_candidate_rows (svc : SearchService) (tickers : List String)
    (published_utc : Option ℤ) (w : ℤ) : List ℕ :=
  let c := candidate_pool svc tickers published_utc w
  let c := if 5000 < c.length then set_update [] ((py_set_iter c).take 5000) else c
  c.insertionSort (· ≤ ·)

/-- The `latest.json` pointer. -/
structure LatestInfo where
  version : String
  manifest_key : String
deriving Repr, DecidableEq

/-- The manifest downloaded in `_load_latest_artifacts` step 2. -/
structure IndexManifest where
  index_key : String
  chunks_key : String
  emb_key : Option String
  dim : ℕ
  ntotal : ℕ
deriving Repr, DecidableEq

/-- One row of the chunks metadata table. -/
structure ChunkRow where
  row_index : ℕ
  chunk_id : String
  doc_id : String
  title : String
  tickers : List String
  published_utc : Option ℤ
  url : String
  tokens : ℕ
  chunk_index : ℕ
deriving Repr, DecidableEq

/-- The persisted artifacts reachable from the latest pointer; `none` for the
index or chunks file models a failed download (the chunks download is the one
the code checks; a missing index file surfaces when `faiss.read_index`
raises), and `none` for the embeddings file models a failed optional
download. -/
structure S3Artifacts where
  latest : LatestInfo
  manifest : IndexManifest
  index_file : Option (List Vec)
  chunks_file : Option (List ChunkRow)
  emb_file : Option (List Vec)
deriving Repr, DecidableEq

/-- Step 8 of `_load_latest_artifacts`: the `row_meta` dict keyed by
`row_index` in table order. -/
def row_meta_of_chunks (rows : List ChunkRow) : List (ℕ × RowMeta) :=
  rows.map fun r =>
    (r.row_index,
      { chunk_id := r.chunk_id
        doc_id := r.doc_id
        title := r.title
        tickers := r.tickers
        published_utc := r.published_utc
        url := r.url
        tokens := r.tokens
        chunk_index := r.chunk_index })

/-- Model of `SearchService._load_latest_artifacts`: a failed chunks download
raises first (step 4); a missing index file fails at `faiss.read_index`
(step 6); otherwise the service is assembled.  The manifest `dim`/`ntotal`
are copied into `self.config` without being compared against the loaded
index. -/
def load_latest_artifacts (s3 : S3Artifacts) : Except String SearchService :=
  match s3.chunks_file with
  | none => .error "Failed to download chunks metadata"
  | some rows =>
    match s3.index_file with
    | none => .error "could not read FAISS index file"
    | some idx =>
      let vecs :=
        match s3.manifest.emb_key with
        | some _ => s3.emb_file
        | none => none
      let rm := row_meta_of_chunks rows
      .ok
        { index := idx
          vecs := vecs
          row_meta := rm
          inv_ticker := build_inv_ticker rm
          inv_date := build_inv_date rm
          config :=
            { version := s3.latest.version
              dim := s3.manifest.dim
              ntotal := s3.manifest.ntotal } }

deriving instance DecidableEq for Except

/-! ## Concrete fixtures used by witnesses and counterexamples -/

/-- A store row about a non-requested ticker. -/
def meta_xom : StoreMeta :=
  { doc_id := "dx", chunk_id := "cx", chunk_index := 0, text := [], tickers := ["XOM"],
    published_at := none, source := "s", url := "ux" }

/-- A store row about the requested ticker. -/
def meta_aapl : StoreMeta :=
  { doc_id := "da", chunk_id := "ca", chunk_index := 0, text := [], tickers := ["AAPL"],
    published_at := none, source := "s", url := "ua" }

/-- A two-row store in which the best-scoring row is about a different ticker
than the single row matching the filter. -/
def store_c10 : FAISSStore :=
  { dimension := 1, index := [[10], [5]], metadata := [meta_xom, meta_aapl] }

/-- A one-row store. -/
def store_one : FAISSStore :=
  { dimension := 1, index := [[7]], metadata := [meta_xom] }

/-- Metadata rows realizing the spec scenario: ticker AAPL on rows 0-4
(published day 0), TSLA on rows 5, 6, 9 (day 50), MSFT on rows 7, 8
(day 10). -/
def row_meta_scn : List (ℕ × RowMeta) :=
  [ (0, { chunk_id := "c0", doc_id := "d0", title := "", tickers := ["AAPL"], published_utc := some 0, url := "", tokens := 1, chunk_index := 0 }),
    (1, { chunk_id := "c1", doc_id := "d1", title := "", tickers := ["AAPL"], published_utc := some 0, url := "", tokens := 1, chunk_index := 0 }),
    (2, { chunk_id := "c2", doc_id := "d2", title := "", tickers := ["AAPL"], published_utc := some 0, url := "", tokens := 1, chunk_index := 0 }),
    (3, { chunk_id := "c3", doc_id := "d3", title := "", tickers := ["AAPL"], published_utc := some 0, url := "", tokens := 1, chunk_index := 0 }),
    (4, { chunk_id := "c4", doc_id := "d4", title := "", tickers := ["AAPL"], published_utc := some 0, url := "", tokens := 1, chunk_index := 0 }),
    (5, { chunk_id := "c5", doc_id := "d5", title := "", tickers := ["TSLA"], published_utc := some 50, url := "", tokens := 1, chunk_index := 0 }),
    (6, { chunk_id := "c6", doc_id := "d6", title := "", tickers := ["TSLA"], published_utc := some 50, url := "", tokens := 1, chunk_index := 0 }),
    (7, { chunk_id := "c7", doc_id := "d7", title := "", tickers := ["MSFT"], published_utc := some 10, url := "", tokens := 1, chunk_index := 0 }),
    (8, { chunk_id := "c8", doc_id := "d8", title := "", tickers := ["MSFT"], published_utc := some 10, url := "", tokens := 1, chunk_index := 0 }),
    (9, { chunk_id := "c9", doc_id := "d9", title := "", tickers := ["TSLA"], published_utc := some 50, url := "", tokens := 1, chunk_index := 0 }) ]

/-- The ten-row service built over `row_meta_scn`. -/
def svc_scn : SearchService :=
  { index := List.replicate 10 [], vecs := none, row_meta := row_meta_scn,
    inv_ticker := build_inv_ticker row_meta_scn, inv_date := build_inv_date row_meta_scn,
    config := { version := "v", dim := 0, ntotal := 10 } }

/-- A service with 5001 rows and no filter metadata, so that the unfiltered
fallback pool exceeds the candidate cap. -/
def svc_big : SearchService :=
  { index := List.replicate 5001 [], vecs := none, row_meta := [],
    inv_ticker := [], inv_date := [],
    config := { version := "v", dim := 0, ntotal := 5001 } }

/-- The inverted-index bucket of a ticker occurring in rows 1..5000 and in
row 32768 of a 32769-row index: 5001 candidates, one of which reaches the
32768-slot hash table of a 5001-element CPython set and therefore occupies
home slot 0. -/
def big_bucket : List ℕ := List.range' 1 5000 ++ [32768]

/-- A service over a 32769-row index whose single ticker bucket is
`big_bucket`. -/
def svc_sparse : SearchService :=
  { index := List.replicate 32769 [], vecs := none, row_meta := [],
    inv_ticker := [("BIG", big_bucket)], inv_date := [],
    config := { version := "v", dim := 0, ntotal := 32769 } }

/-- One metadata row whose ticker is spelled in lower case. -/
def row_meta_lower : List (ℕ × RowMeta) :=
  [ (0, { chunk_id := "c0", doc_id := "d0", title := "", tickers := ["aapl"], published_utc := none, url := "", tokens := 1, chunk_index := 0 }) ]

/-- Persisted artifacts whose manifest claims `ntotal = 1` and `dim = 3`
while the index file actually holds two vectors of dimension 1. -/
def s3_mismatch : S3Artifacts :=
  { latest := { version := "v1", manifest_key := "mk" },
    manifest := { index_key := "ik", chunks_key := "ck", emb_key := none, dim := 3, ntotal := 1 },
    index_file := some [[1], [2]], chunks_file := some [], emb_file := none }

/-- A configuration whose ordering constraint holds while its ceiling is far
below the length of a single sentence. -/
def cfg_tiny : ChunkerConfig := { target := 1, max := 1, overlap := 0, min_tokens := 1 }

/-- A well-behaved configuration for the amended chunk-size bound. -/
def cfg_wit : ChunkerConfig := { target := 2, max := 3, overlap := 1, min_tokens := 2 }

/-! ## Renumbering lemmas -/

theorem renumber_chunks_length (i : ℕ) (l : List Chunk) :
    (renumber_chunks i l).length = l.length := by
  induction l generalizing i with
  | nil => rfl
  | cons c cs ih => simp [renumber_chunks, ih]

theorem renumber_chunks_map_index (i : ℕ) (l : List Chunk) :
    (renumber_chunks i l).map Chunk.chunk_index = List.range' i l.length := by
  induction l generalizing i with
  | nil => rfl
  | cons c cs ih => simp [renumber_chunks, List.range'_succ, ih]

theorem renumber_chunks_tokens (i : ℕ) (l : List Chunk) :
    ∀ c ∈ renumber_chunks i l, c.tokens = tok_len c.text := by
  induction l generalizing i with
  | nil => intro c hc; cases hc
  | cons a as ih =>
    intro c hc
    simp only [renumber_chunks, List.mem_cons] at hc
    rcases hc with rfl | hc
    · rfl
    · exact ih (i + 1) c hc

theorem renumber_chunks_text (i : ℕ) (l : List Chunk) :
    (renumber_chunks i l).map Chunk.text = l.map Chunk.text := by
  induction l generalizing i with
  | nil => rfl
  | cons c cs ih => simp [renumber_chunks, ih]

/-- Claim C4: for every sentence sequence (hence for every input text, doc_id
and title) the chunks returned by `split_text` carry `chunk_index` values
exactly `0..n-1` in order with no gaps, and every returned chunk's `tokens`
field equals the token length of its final text. -/
theorem split_text_chunk_index_tokens (cfg : ChunkerConfig)
    (sents : List (List Tok)) (doc_id : String) :
    (cfg.split_text sents doc_id).map Chunk.chunk_index
        = List.range (cfg.split_text sents doc_id).length
    ∧ ∀ c ∈ cfg.split_text sents doc_id, c.tokens = tok_len c.text := by
  simp only [ChunkerConfig.split_text]
  constructor
  · rw [renumber_chunks_map_index, renumber_chunks_length, List.range_eq_range']
  · exact renumber_chunks_tokens 0 _

/-! ## Store lemmas: record lookup, append, round-trip, filtered search -/

/-- Claim C7: `get_metadata` yields `none` (the out-of-range failure) exactly
on invalid row indices, negative ones included, and returns the stored record
on every valid one. -/
theorem get_metadata_spec (s : FAISSStore) (i : ℤ) :
    ((i < 0 ∨ (s.metadata.length : ℤ) ≤ i) → s.get_metadata i = none)
    ∧ (0 ≤ i → i < (s.metadata.length : ℤ) →
        ∃ m, s.metadata[i.toNat]? = some m ∧ s.get_metadata i = some m) := by
  constructor
  · intro h
    unfold FAISSStore.get_metadata
    rw [dif_neg]
    omega
  · intro h1 h2
    have hn : i.toNat < s.metadata.length := by omega
    refine ⟨s.metadata[i.toNat], List.getElem?_eq_getElem hn, ?_⟩
    unfold FAISSStore.get_metadata
    rw [dif_pos ⟨h1, h2⟩]
    rfl

/-- Witness for C7 at a concrete one-row store: both invalid lookups fail and
the valid one returns the stored record. -/
theorem get_metadata_spec_witness :
    store_one.get_metadata (-1) = none
    ∧ store_one.get_metadata 1 = none
    ∧ ∃ m, store_one.metadata[(0 : ℤ).toNat]? = some m
        ∧ store_one.get_metadata 0 = some m :=
  ⟨(get_metadata_spec store_one (-1)).1 (by decide),
   (get_metadata_spec store_one 1).1 (by decide),
   (get_metadata_spec store_one 0).2 (by decide) (by decide)⟩

/-- Claim C8: `add_vectors` fails with the shape-mismatch error whenever the
vector and metadata counts disagree (the check precedes any mutation, so the
store is untouched), and otherwise appends both in parallel, placing the new
records at consecutive positions starting at the current size and keeping the
vector count equal to the metadata count. -/
theorem add_vectors_spec (s : FAISSStore) (vectors : List Vec)
    (metadata_list : List StoreMeta) :
    (vectors.length ≠ metadata_list.length →
      s.add_vectors vectors metadata_list
        = .error "Vectors and metadata must have same length")
    ∧ (vectors.length = metadata_list.length →
      ∃ s2, s.add_vectors vectors metadata_list = .ok s2
        ∧ s2.index = s.index ++ vectors
        ∧ s2.metadata = s.metadata ++ metadata_list
        ∧ (∀ j, s2.metadata[s.metadata.length + j]? = metadata_list[j]?)
        ∧ (s.index.length = s.metadata.length →
            s2.index.length = s2.metadata.length)) := by
  constructor
  · intro h
    simp [FAISSStore.add_vectors, h]
  · intro h
    refine ⟨{ s with index := s.index ++ vectors, metadata := s.metadata ++ metadata_list },
      by simp [FAISSStore.add_vectors, h], rfl, rfl, ?_, ?_⟩
    · intro j
      rw [List.getElem?_append_right (by omega)]
      congr 1
      omega
    · intro hlen
      simp [List.length_append, hlen, h]

/-- Witness for C8: a mismatched append fails with the error, a matched
append succeeds with the promised shape. -/
theorem add_vectors_spec_witness :
    store_one.add_vectors [[1], [2]] [meta_aapl]
        = .error "Vectors and metadata must have same length"
    ∧ ∃ s2, store_one.add_vectors [[1]] [meta_aapl] = .ok s2
        ∧ s2.index = store_one.index ++ [[1]]
        ∧ s2.metadata = store_one.metadata ++ [meta_aapl]
        ∧ (∀ j, s2.metadata[store_one.metadata.length + j]? = [meta_aapl][j]?)
        ∧ (store_one.index.length = store_one.metadata.length →
            s2.index.length = s2.metadata.length) :=
  ⟨(add_vectors_spec store_one [[1], [2]] [meta_aapl]).1 (by decide),
   (add_vectors_spec store_one [[1]] [meta_aapl]).2 (by decide)⟩

/-- Claim C9: reloading the files written by `save_index` reconstructs the
store exactly: same record count, bit-identical vectors, identical metadata,
identical row ordering. -/
theorem store_roundtrip (s : FAISSStore) :
    load_or_create_index s.dimension (some s.save_index) = s
    ∧ (load_or_create_index s.dimension (some s.save_index)).index = s.index
    ∧ (load_or_create_index s.dimension (some s.save_index)).metadata = s.metadata
    ∧ (load_or_create_index s.dimension (some s.save_index)).ntotal = s.ntotal :=
  ⟨rfl, rfl, rfl, rfl⟩

/-- Claim C10: the filter of a filtered search is applied only to the top-k
of the unfiltered similarity search.  In `store_c10`, one record (at least
`k = 1`) matches the ticker filter, yet the filtered search returns zero
results, because the matching record is ranked below the unfiltered top-1. -/
theorem filtered_search_undershoots :
    1 ≤ (store_c10.metadata.filter fun m => m.tickers.contains "AAPL").length
    ∧ store_c10.search_by_ticker [1] "AAPL" 1 = .ok []
    ∧ ([] : List (ℤ × ℤ)).length < 1 := by
  refine ⟨by decide, by decide, by decide⟩

/-! ## Load-time shape handling (claim C6) -/

/-- Counterexample to claim C6: the artifacts `s3_mismatch` disagree with
their manifest in both `ntotal` (2 actual vectors vs 1) and `dim` (vectors of
length 1 vs 3), yet `load_latest_artifacts` serves a constructed service
rather than returning an error. -/
theorem load_latest_artifacts_mismatch_cx :
    (load_latest_artifacts s3_mismatch).toOption.map
        (fun svc => (svc.index.length, svc.index.map List.length,
                     svc.config.ntotal, svc.config.dim))
      = some (2, [1, 1], 1, 3) := by decide

/-- Claim C6 (amended): `_load_latest_artifacts` performs no shape
validation.  Whenever the chunks file and the index file are both readable,
the load succeeds whatever the manifest says, and the manifest `dim` and
`ntotal` are stored in the config without being compared against the loaded
index. -/
theorem load_latest_artifacts_no_shape_check (s3 : S3Artifacts)
    (rows : List ChunkRow) (idx : List Vec)
    (hc : s3.chunks_file = some rows) (hi : s3.index_file = some idx) :
    ∃ svc, load_latest_artifacts s3 = .ok svc ∧ svc.index = idx
      ∧ svc.config.dim = s3.manifest.dim
      ∧ svc.config.ntotal = s3.manifest.ntotal := by
  simp only [load_latest_artifacts, hc, hi]
  exact ⟨_, rfl, rfl, rfl, rfl⟩

/-- Witness for the amended C6 at the mismatched artifacts: the load
succeeds despite the disagreement. -/
theorem load_latest_artifacts_no_shape_check_witness :
    s3_mismatch.chunks_file = some []
    ∧ s3_mismatch.index_file = some [[1], [2]]
    ∧ s3_mismatch.manifest.ntotal = 1
    ∧ s3_mismatch.manifest.dim = 3
    ∧ ∃ svc, load_latest_artifacts s3_mismatch = .ok svc ∧ svc.index = [[1], [2]]
        ∧ svc.config.dim = s3_mismatch.manifest.dim
        ∧ svc.config.ntotal = s3_mismatch.manifest.ntotal :=
  ⟨rfl, rfl, rfl, rfl,
   load_latest_artifacts_no_shape_check s3_mismatch [] [[1], [2]] rfl rfl⟩

/-! ## Inverted-index bucket lemmas (claim C5) -/

theorem mem_dict_bucket_append {κ : Type} [DecidableEq κ]
    (d : List (κ × List ℕ)) (k : κ) (v : ℕ) (key : κ) (x : ℕ) :
    x ∈ dict_bucket (dict_append d k v) key
      ↔ x ∈ dict_bucket d key ∨ (x = v ∧ key = k) := by
  induction d with
  | nil =>
    by_cases h : key = k
    · subst h; simp [dict_append, dict_bucket, dict_find]
    · simp [dict_append, dict_bucket, dict_find, h]
  | cons p rest ih =>
    obtain ⟨k1, l⟩ := p
    by_cases h1 : k = k1
    · subst h1
      by_cases h2 : key = k
      · subst h2
        simp [dict_append, dict_bucket, dict_find, List.mem_append]
      · simp [dict_append, dict_bucket, dict_find, h2]
    · by_cases h2 : key = k1
      · subst h2
        simp [dict_append, dict_bucket, dict_find, h1, Ne.symm h1]
      · simp only [dict_append, if_neg h1, dict_bucket, dict_find, if_neg h2]
        exact ih

theorem mem_dict_bucket_ticker_row (tickers : List String)
    (d : List (String × List ℕ)) (ri : ℕ) (key : String) (x : ℕ) :
    x ∈ dict_bucket (tickers.foldl (fun d t => dict_append d t ri) d) key
      ↔ x ∈ dict_bucket d key ∨ (x = ri ∧ key ∈ tickers) := by
  induction tickers generalizing d with
  | nil => simp
  | cons t ts ih =>
    simp only [List.foldl_cons, ih, mem_dict_bucket_append, List.mem_cons]
    tauto

theorem mem_dict_bucket_build_aux (rm : List (ℕ × RowMeta))
    (d : List (String × List ℕ)) (key : String) (x : ℕ) :
    x ∈ dict_bucket
        (rm.foldl (fun d r => r.2.tickers.foldl (fun d t => dict_append d t r.1) d) d) key
      ↔ x ∈ dict_bucket d key ∨ ∃ m, (x, m) ∈ rm ∧ key ∈ m.tickers := by
  induction rm generalizing d with
  | nil => simp
  | cons r rs ih =>
    simp only [List.foldl_cons, ih, mem_dict_bucket_ticker_row, List.mem_cons]
    constructor
    · rintro ((h | ⟨rfl, hk⟩) | ⟨m, hm, hk⟩)
      · exact .inl h
      · exact .inr ⟨r.2, .inl rfl, hk⟩
      · exact .inr ⟨m, .inr hm, hk⟩
    · rintro (h | ⟨m, (h | hm), hk⟩)
      · exact .inl (.inl h)
      · refine .inl (.inr ⟨congrArg Prod.fst h, ?_⟩)
        rw [← h]
        exact hk
      · exact .inr ⟨m, hm, hk⟩

/-- Counterexample to claim C5: `_build_inverted_indices` does not
case-normalize ticker keys.  A store whose metadata spells the ticker
`"aapl"` gets the key `"aapl"`, and a lookup for `"AAPL"` misses the row
entirely instead of hitting the same row set. -/
theorem build_inv_ticker_case_cx :
    dict_find (build_inv_ticker row_meta_lower) "AAPL" = none
    ∧ dict_find (build_inv_ticker row_meta_lower) "aapl" = some [0]
    ∧ row_meta_lower.map (fun r => r.2.tickers) = [["aapl"]] := by decide

/-- Claim C5 (amended): ticker keys of the inverted index are taken verbatim
from the store metadata, with no case normalization, and lookups are
case-sensitive: a row index lies in the bucket of a key exactly when that key
occurs letter-for-letter among the tickers of that row's metadata.  (Keys are
upper-case in production only because the ingestion model upper-cases tickers
upstream.) -/
theorem build_inv_ticker_verbatim (rm : List (ℕ × RowMeta)) (key : String) (x : ℕ) :
    x ∈ dict_bucket (build_inv_ticker rm) key
      ↔ ∃ m, (x, m) ∈ rm ∧ key ∈ m.tickers := by
  have h := mem_dict_bucket_build_aux rm [] key x
  simpa [build_inv_ticker, dict_bucket, dict_find] using h

/-! ## Ascending-set lemmas (claims C1, C2) -/

theorem set_insert_mem (s : List ℕ) (x a : ℕ) :
    a ∈ set_insert s x ↔ a = x ∨ a ∈ s := by
  induction s with
  | nil => simp [set_insert]
  | cons y ys ih =>
    simp only [set_insert]
    split_ifs with h1 h2
    · simp only [List.mem_cons]
    · subst h2
      simp only [List.mem_cons]
      tauto
    · simp only [List.mem_cons, ih]
      tauto

theorem set_insert_sorted (x : ℕ) {s : List ℕ} (h : List.Sorted (· < ·) s) :
    List.Sorted (· < ·) (set_insert s x) := by
  induction s with
  | nil => simp [set_insert]
  | cons y ys ih =>
    rw [List.sorted_cons] at h
    by_cases h1 : x < y
    · simp only [set_insert, if_pos h1]
      rw [List.sorted_cons]
      refine ⟨?_, ?_⟩
      · intro b hb
        rcases List.mem_cons.mp hb with rfl | hb
        · exact h1
        · exact h1.trans (h.1 b hb)
      · rw [List.sorted_cons]
        exact h
    · by_cases h2 : x = y
      · simp only [set_insert, if_neg h1, if_pos h2]
        rw [List.sorted_cons]
        exact h
      · simp only [set_insert, if_neg h1, if_neg h2]
        rw [List.sorted_cons]
        refine ⟨?_, ih h.2⟩
        intro b hb
        rcases (set_insert_mem ys x b).mp hb with rfl | hb
        · omega
        · exact h.1 b hb

theorem set_update_sorted (xs : List ℕ) :
    ∀ (s : List ℕ), List.Sorted (· < ·) s → List.Sorted (· < ·) (set_update s xs) := by
  induction xs with
  | nil => intro s h; exact h
  | cons x xt ih =>
    intro s h
    simp only [set_update, List.foldl_cons]
    exact ih (set_insert s x) (set_insert_sorted x h)

theorem set_update_mem (xs : List ℕ) :
    ∀ (s : List ℕ) (a : ℕ), a ∈ set_update s xs ↔ a ∈ s ∨ a ∈ xs := by
  induction xs with
  | nil => simp [set_update]
  | cons x xt ih =>
    intro s a
    simp only [set_update, List.foldl_cons] at *
    rw [ih (set_insert s x) a, set_insert_mem, List.mem_cons]
    tauto

theorem foldl_sorted {β : Type} (f : List ℕ → β → List ℕ)
    (hf : ∀ s b, List.Sorted (· < ·) s → List.Sorted (· < ·) (f s b)) (l : List β) :
    ∀ s, List.Sorted (· < ·) s → List.Sorted (· < ·) (l.foldl f s) := by
  induction l with
  | nil => intro s h; exact h
  | cons b bt ih =>
    intro s h
    simp only [List.foldl_cons]
    exact ih (f s b) (hf s b h)

theorem foldl_sub {β : Type} (f : List ℕ → β → List ℕ)
    (hf : ∀ s b, s ⊆ f s b) (l : List β) :
    ∀ s, s ⊆ l.foldl f s := by
  induction l with
  | nil => intro s; exact fun a ha => ha
  | cons b bt ih =>
    intro s a ha
    simp only [List.foldl_cons]
    exact ih (f s b) (hf s b ha)

theorem ticker_step_sorted (svc : SearchService) (s : List ℕ) (t : String)
    (h : List.Sorted (· < ·) s) :
    List.Sorted (· < ·)
      (match dict_find svc.inv_ticker t with
        | some rows => set_update s rows
        | none => s) := by
  cases hfind : dict_find svc.inv_ticker t with
  | none => exact h
  | some rows => exact set_update_sorted rows s h

theorem date_step_sorted (svc : SearchService) (qd : ℤ) (s : List ℕ) (i : ℤ)
    (h : List.Sorted (· < ·) s) :
    List.Sorted (· < ·)
      (match dict_find svc.inv_date (qd + i) with
        | some rows => set_update s rows
        | none => s) := by
  cases hfind : dict_find svc.inv_date (qd + i) with
  | none => exact h
  | some rows => exact set_update_sorted rows s h

theorem date_step_sub (svc : SearchService) (qd : ℤ) (s : List ℕ) (i : ℤ) :
    s ⊆ (match dict_find svc.inv_date (qd + i) with
          | some rows => set_update s rows
          | none => s) := by
  cases hfind : dict_find svc.inv_date (qd + i) with
  | none => exact fun a ha => ha
  | some rows => exact fun a ha => (set_update_mem rows s a).mpr (.inl ha)

theorem ticker_candidates_sorted (svc : SearchService) (tickers : List String)
    (c : List ℕ) (h : List.Sorted (· < ·) c) :
    List.Sorted (· < ·) (ticker_candidates svc tickers c) :=
  foldl_sorted _ (fun s t hs => ticker_step_sorted svc s t hs) tickers c h

theorem date_candidates_sorted (svc : SearchService) (pub : Option ℤ) (w : ℤ)
    (c : List ℕ) (h : List.Sorted (· < ·) c) :
    List.Sorted (· < ·) (date_candidates svc pub w c) := by
  cases pub with
  | none => exact h
  | some qd =>
    exact foldl_sorted _ (fun s i hs => date_step_sorted svc qd s i hs) (window_offsets w) c h

theorem raw_candidates_sorted (svc : SearchService) (tickers : List String)
    (pub : Option ℤ) (w : ℤ) :
    List.Sorted (· < ·) (raw_candidates svc tickers pub w) :=
  date_candidates_sorted svc pub w _
    (ticker_candidates_sorted svc tickers [] List.sorted_nil)

theorem candidate_pool_sorted (svc : SearchService) (tickers : List String)
    (pub : Option ℤ) (w : ℤ) :
    List.Sorted (· < ·) (candidate_pool svc tickers pub w) := by
  by_cases h : raw_candidates svc tickers pub w = []
  · simp only [candidate_pool, h, if_pos rfl]
    exact List.sorted_lt_range _
  · simp only [candidate_pool, if_neg h]
    exact raw_candidates_sorted svc tickers pub w

theorem mem_date_fold (svc : SearchService) (qd : ℤ) (offs : List ℤ)
    (i : ℤ) (hi : i ∈ offs) (rows : List ℕ)
    (hrows : dict_find svc.inv_date (qd + i) = some rows) (x : ℕ) (hx : x ∈ rows) :
    ∀ base, x ∈ offs.foldl
        (fun acc i =>
          match dict_find svc.inv_date (qd + i) with
          | some rows => set_update acc rows
          | none => acc)
        base := by
  induction offs with
  | nil => cases hi
  | cons j jt ih =>
    intro base
    simp only [List.foldl_cons]
    rcases List.mem_cons.mp hi with rfl | hj
    · refine foldl_sub _ (fun s b => date_step_sub svc qd s b) jt _ ?_
      show x ∈ (match dict_find svc.inv_date (qd + i) with
        | some rows => set_update base rows
        | none => base)
      rw [hrows]
      exact (set_update_mem rows base x).mpr (.inr hx)
    · exact ih hj _

/-- Counterexample to claim C1: for the filter `tickers = ["ZZZ"]` (a ticker
absent from the index) with query day 1000 (a window matching no rows), the
ticker-and-date union is empty, yet `_get_candidate_rows` returns all ten
rows of the index — the fallback, not the union. -/
theorem get_candidate_rows_fallback_cx :
    raw_candidates svc_scn ["ZZZ"] (some 1000) 3 = []
    ∧ get_candidate_rows svc_scn ["ZZZ"] (some 1000) 3 = [0, 1, 2, 3, 4, 5, 6, 7, 8, 9] := by
  decide

/-- Claim C1 (amended): for every filter with a non-empty ticker list and a
set published date whose ticker∪date union is non-empty and within the 5000
cap, the candidate row set equals exactly that union — ticker buckets united
with date-window buckets, never intersected; in particular every row indexed
under any day of the window is a candidate even when it matches none of the
requested tickers.  (An empty union falls back to all rows, and a union over
the cap is truncated; see the cap claim.) -/
theorem get_candidate_rows_eq_union (svc : SearchService) (tickers : List String)
    (qd : ℤ) (w : ℤ)
    (_hts : tickers ≠ [])
    (hne : raw_candidates svc tickers (some qd) w ≠ [])
    (hcap : (raw_candidates svc tickers (some qd) w).length ≤ 5000) :
    get_candidate_rows svc tickers (some qd) w = raw_candidates svc tickers (some qd) w
    ∧ ∀ i ∈ window_offsets w, ∀ rows, dict_find svc.inv_date (qd + i) = some rows →
        ∀ x ∈ rows, x ∈ get_candidate_rows svc tickers (some qd) w := by
  have hsorted : List.Sorted (· < ·) (raw_candidates svc tickers (some qd) w) :=
    raw_candidates_sorted svc tickers (some qd) w
  have hpool : candidate_pool svc tickers (some qd) w
      = raw_candidates svc tickers (some qd) w := by
    simp only [candidate_pool, if_neg hne]
  have heq : get_candidate_rows svc tickers (some qd) w
      = raw_candidates svc tickers (some qd) w := by
    simp only [get_candidate_rows, hpool]
    rw [if_neg (by omega : ¬ 5000 < (raw_candidates svc tickers (some qd) w).length)]
    exact (hsorted.le_of_lt).insertionSort_eq
  refine ⟨heq, ?_⟩
  intro i hi rows hrows x hx
  rw [heq]
  show x ∈ date_candidates svc (some qd) w (ticker_candidates svc tickers [])
  simp only [date_candidates]
  exact mem_date_fold svc qd (window_offsets w) i hi rows hrows x hx _

/-- Witness for the amended C1, realizing the spec scenario: tickers
`["AAPL"]` (rows 0-4) with a date window matching only rows 7 and 8 yields
exactly the union `[0, 1, 2, 3, 4, 7, 8]`. -/
theorem get_candidate_rows_eq_union_witness :
    (["AAPL"] : List String) ≠ []
    ∧ raw_candidates svc_scn ["AAPL"] (some 10) 1 ≠ []
    ∧ (raw_candidates svc_scn ["AAPL"] (some 10) 1).length ≤ 5000
    ∧ (get_candidate_rows svc_scn ["AAPL"] (some 10) 1
          = raw_candidates svc_scn ["AAPL"] (some 10) 1
      ∧ ∀ i ∈ window_offsets 1, ∀ rows, dict_find svc_scn.inv_date (10 + i) = some rows →
          ∀ x ∈ rows, x ∈ get_candidate_rows svc_scn ["AAPL"] (some 10) 1)
    ∧ get_candidate_rows svc_scn ["AAPL"] (some 10) 1 = [0, 1, 2, 3, 4, 7, 8] :=
  ⟨by decide, by decide, by decide,
   get_candidate_rows_eq_union svc_scn ["AAPL"] 10 1 (by decide) (by decide) (by decide),
   by decide⟩

/-- Two strictly ascending lists with the same elements are equal: the
canonical set representation is unique. -/
theorem sorted_lt_canonical_eq {l₁ l₂ : List ℕ} (h₁ : List.Sorted (· < ·) l₁)
    (h₂ : List.Sorted (· < ·) l₂) (hmem : ∀ a, a ∈ l₁ ↔ a ∈ l₂) : l₁ = l₂ :=
  List.eq_of_perm_of_sorted
    ((List.perm_ext_iff_of_nodup h₁.nodup h₂.nodup).mpr hmem) h₁ h₂

theorem set_update_nil_mem (l : List ℕ) (a : ℕ) :
    a ∈ set_update [] l ↔ a ∈ l := by
  rw [set_update_mem]
  simp

theorem set_update_nil_of_sorted {l : List ℕ} (h : List.Sorted (· < ·) l) :
    set_update [] l = l :=
  sorted_lt_canonical_eq (set_update_sorted l [] List.sorted_nil) h
    (set_update_nil_mem l)

theorem py_set_iter_perm (s : List ℕ) : (py_set_iter s).Perm s :=
  List.perm_insertionSort _ s

/-- In the dense regime — every element below the hash-table size — each
element sits in the home slot equal to itself, so CPython set iteration
coincides with ascending order. -/
theorem py_set_iter_of_dense {s : List ℕ} (hs : List.Sorted (· < ·) s)
    (hdense : ∀ x ∈ s, x < py_set_table_size s.length) :
    py_set_iter s = s := by
  unfold py_set_iter
  apply List.Sorted.insertionSort_eq
  refine List.Pairwise.imp_of_mem ?_ hs
  intro a b ha hb hab
  left
  rw [Nat.mod_eq_of_lt (hdense a ha), Nat.mod_eq_of_lt (hdense b hb)]
  exact hab

theorem sorted_lt_range'_concat (sta n b : ℕ) (hb : sta + n ≤ b) :
    List.Sorted (· < ·) (List.range' sta n ++ [b]) := by
  rw [List.Sorted, List.pairwise_append]
  refine ⟨List.pairwise_lt_range' sta n, List.pairwise_singleton _ _, ?_⟩
  intro a ha c hc
  rw [List.mem_singleton] at hc
  subst hc
  have := (List.mem_range'_1.mp ha).2
  omega

theorem py_set_state_succ (n : ℕ) :
    py_set_state (n + 1) = py_set_insert_grow (py_set_state n) := rfl

/-- Between two resize thresholds the table size of a growing CPython set is
constant: as long as `fill*5 < mask*3` keeps holding, inserts only bump the
fill. -/
theorem py_set_state_stable (sz : ℕ) :
    ∀ (d a : ℕ), py_set_state a = (sz, a) →
      (∀ k, a < k → k ≤ a + d → ¬ 3 * (sz - 1) ≤ 5 * k) →
      py_set_state (a + d) = (sz, a + d) := by
  intro d
  induction d with
  | zero => intro a h _; simpa using h
  | succ n ih =>
    intro a h hcond
    have hprev : py_set_state (a + n) = (sz, a + n) :=
      ih a h (fun k hk1 hk2 => hcond k hk1 (by omega))
    rw [show a + (n + 1) = (a + n) + 1 from rfl, py_set_state_succ, hprev]
    unfold py_set_insert_grow
    dsimp only
    rw [if_neg (hcond (a + n + 1) (by omega) (by omega))]

/-!
The resize trajectory of a CPython set grown to 5001 distinct keys: the
table sizes are 8, 32, 128, 512, 2048, 8192, 32768, with resizes at fills
5, 19, 77, 307, 1229 and 4915; a 5001-key set therefore has a 32768-slot
table.  Each stretch between resizes is covered by `py_set_state_stable`,
each resize by a one-step computation.
-/

theorem py_set_state_4 : py_set_state 4 = (8, 4) := by
  have h := py_set_state_stable 8 4 0 rfl (by intro k h1 h2; omega)
  norm_num at h
  exact h

theorem py_set_state_5 : py_set_state 5 = (32, 5) := by
  rw [show (5 : ℕ) = 4 + 1 from rfl, py_set_state_succ, py_set_state_4]
  decide

theorem py_set_state_18 : py_set_state 18 = (32, 18) := by
  have h := py_set_state_stable 32 13 5 py_set_state_5 (by intro k h1 h2; omega)
  norm_num at h
  exact h

theorem py_set_state_19 : py_set_state 19 = (128, 19) := by
  rw [show (19 : ℕ) = 18 + 1 from rfl, py_set_state_succ, py_set_state_18]
  decide

theorem py_set_state_76 : py_set_state 76 = (128, 76) := by
  have h := py_set_state_stable 128 57 19 py_set_state_19 (by intro k h1 h2; omega)
  norm_num at h
  exact h

theorem py_set_state_77 : py_set_state 77 = (512, 77) := by
  rw [show (77 : ℕ) = 76 + 1 from rfl, py_set_state_succ, py_set_state_76]
  decide

theorem py_set_state_306 : py_set_state 306 = (512, 306) := by
  have h := py_set_state_stable 512 229 77 py_set_state_77 (by intro k h1 h2; omega)
  norm_num at h
  exact h

theorem py_set_state_307 : py_set_state 307 = (2048, 307) := by
  rw [show (307 : ℕ) = 306 + 1 from rfl, py_set_state_succ, py_set_state_306]
  decide

theorem py_set_state_1228 : py_set_state 1228 = (2048, 1228) := by
  have h := py_set_state_stable 2048 921 307 py_set_state_307 (by intro k h1 h2; omega)
  norm_num at h
  exact h

theorem py_set_state_1229 : py_set_state 1229 = (8192, 1229) := by
  rw [show (1229 : ℕ) = 1228 + 1 from rfl, py_set_state_succ, py_set_state_1228]
  decide

theorem py_set_state_4914 : py_set_state 4914 = (8192, 4914) := by
  have h := py_set_state_stable 8192 3685 1229 py_set_state_1229 (by intro k h1 h2; omega)
  norm_num at h
  exact h

theorem py_set_state_4915 : py_set_state 4915 = (32768, 4915) := by
  rw [show (4915 : ℕ) = 4914 + 1 from rfl, py_set_state_succ, py_set_state_4914]
  decide

theorem py_set_state_5001 : py_set_state 5001 = (32768, 5001) := by
  have h := py_set_state_stable 32768 86 4915 py_set_state_4915 (by intro k h1 h2; omega)
  norm_num at h
  exact h

theorem py_set_table_size_eq (n : ℕ) :
    py_set_table_size n = (py_set_state n).1 := rfl

/-- A CPython set holding 5001 distinct keys has a 32768-slot hash table. -/
theorem py_set_table_size_5001 : py_set_table_size 5001 = 32768 := by
  rw [py_set_table_size_eq, py_set_state_5001]

/-- Claim C2 (amended): whenever the candidate pool (after the empty-union
fallback) exceeds 5000 rows, `_get_candidate_rows` keeps exactly 5000
elements of the pool — the first 5000 in CPython set-iteration order, a
capacity control independent of any similarity score.  When every candidate
row index lies below the hash-table size of the candidate set (the dense
regime — in particular the all-rows fallback), iteration order is ascending
row index and the retained candidates are precisely the 5000 smallest;
outside that regime they need not be (see the counterexample). -/
theorem get_candidate_rows_cap (svc : SearchService) (tickers : List String)
    (published_utc : Option ℤ) (w : ℤ)
    (h : 5000 < (candidate_pool svc tickers published_utc w).length) :
    ((get_candidate_rows svc tickers published_utc w).length = 5000
      ∧ ∀ x ∈ get_candidate_rows svc tickers published_utc w,
          x ∈ candidate_pool svc tickers published_utc w)
    ∧ ((∀ x ∈ candidate_pool svc tickers published_utc w,
          x < py_set_table_size (candidate_pool svc tickers published_utc w).length) →
        get_candidate_rows svc tickers published_utc w
            = (candidate_pool svc tickers published_utc w).take 5000
        ∧ ∀ x ∈ get_candidate_rows svc tickers published_utc w,
            ∀ y ∈ candidate_pool svc tickers published_utc w,
              y ∉ get_candidate_rows svc tickers published_utc w → x < y) := by
  have hsort : List.Sorted (· < ·) (candidate_pool svc tickers published_utc w) :=
    candidate_pool_sorted svc tickers published_utc w
  have hres : get_candidate_rows svc tickers published_utc w
      = set_update []
          ((py_set_iter (candidate_pool svc tickers published_utc w)).take 5000) := by
    simp only [get_candidate_rows, if_pos h]
    exact ((set_update_sorted _ [] List.sorted_nil).le_of_lt).insertionSort_eq
  have hperm := py_set_iter_perm (candidate_pool svc tickers published_utc w)
  have hiternd : (py_set_iter (candidate_pool svc tickers published_utc w)).Nodup :=
    hperm.nodup_iff.mpr hsort.nodup
  have hLnd : ((py_set_iter (candidate_pool svc tickers published_utc w)).take 5000).Nodup :=
    List.Nodup.sublist (List.take_sublist 5000 _) hiternd
  have hLlen : ((py_set_iter (candidate_pool svc tickers published_utc w)).take 5000).length
      = 5000 := by
    rw [List.length_take, hperm.length_eq]
    omega
  have hRperm : (set_update []
        ((py_set_iter (candidate_pool svc tickers published_utc w)).take 5000)).Perm
      ((py_set_iter (candidate_pool svc tickers published_utc w)).take 5000) :=
    (List.perm_ext_iff_of_nodup
        (set_update_sorted _ [] List.sorted_nil).nodup hLnd).mpr
      (set_update_nil_mem _)
  constructor
  · constructor
    · rw [hres]
      exact hRperm.length_eq.trans hLlen
    · intro x hx
      rw [hres] at hx
      have hxL := (set_update_nil_mem _ x).mp hx
      exact hperm.mem_iff.mp ((List.take_sublist _ _).subset hxL)
  · intro hdense
    have hiter := py_set_iter_of_dense hsort hdense
    have htake : List.Sorted (· < ·)
        ((candidate_pool svc tickers published_utc w).take 5000) :=
      List.Pairwise.sublist (List.take_sublist 5000 _) hsort
    have heq : get_candidate_rows svc tickers published_utc w
        = (candidate_pool svc tickers published_utc w).take 5000 := by
      rw [hres, hiter]
      exact set_update_nil_of_sorted htake
    refine ⟨heq, ?_⟩
    intro x hx y hy hyn
    rw [heq] at hx hyn
    have hy2 : y ∈ (candidate_pool svc tickers published_utc w).take 5000
        ++ (candidate_pool svc tickers published_utc w).drop 5000 := by
      rw [List.take_append_drop]
      exact hy
    rcases List.mem_append.mp hy2 with h1 | h1
    · exact absurd h1 hyn
    · have hp2 : List.Pairwise (· < ·)
          ((candidate_pool svc tickers published_utc w).take 5000
            ++ (candidate_pool svc tickers published_utc w).drop 5000) := by
        rw [List.take_append_drop]
        exact hsort
      exact (List.pairwise_append.mp hp2).2.2 x hx y h1

/-- Witness for the amended C2: a service with 5001 rows and no filter
metadata; the fallback pool has 5001 rows — all below the 32768-slot table
of a 5001-element set — so the cap applies in the dense regime. -/
theorem get_candidate_rows_cap_witness :
    5000 < (candidate_pool svc_big [] none 3).length
    ∧ (∀ x ∈ candidate_pool svc_big [] none 3,
        x < py_set_table_size (candidate_pool svc_big [] none 3).length)
    ∧ (((get_candidate_rows svc_big [] none 3).length = 5000
        ∧ ∀ x ∈ get_candidate_rows svc_big [] none 3,
            x ∈ candidate_pool svc_big [] none 3)
      ∧ ((∀ x ∈ candidate_pool svc_big [] none 3,
            x < py_set_table_size (candidate_pool svc_big [] none 3).length) →
          get_candidate_rows svc_big [] none 3
              = (candidate_pool svc_big [] none 3).take 5000
          ∧ ∀ x ∈ get_candidate_rows svc_big [] none 3,
              ∀ y ∈ candidate_pool svc_big [] none 3,
                y ∉ get_candidate_rows svc_big [] none 3 → x < y)) := by
  have hr : raw_candidates svc_big [] none 3 = [] := rfl
  have hidx : svc_big.index = List.replicate 5001 [] := rfl
  have hpool : candidate_pool svc_big [] none 3 = List.range 5001 := by
    simp only [candidate_pool, hr, if_pos, hidx, List.length_replicate]
  have h : 5000 < (candidate_pool svc_big [] none 3).length := by
    rw [hpool, List.length_range]
    norm_num
  have htab : py_set_table_size 5001 = 32768 := py_set_table_size_5001
  have hdense : ∀ x ∈ candidate_pool svc_big [] none 3,
      x < py_set_table_size (candidate_pool svc_big [] none 3).length := by
    intro x hx
    rw [hpool, List.length_range, htab]
    rw [hpool] at hx
    have := List.mem_range.mp hx
    omega
  exact ⟨h, hdense, get_candidate_rows_cap svc_big [] none 3 h⟩

theorem date_candidates_none (svc : SearchService) (w : ℤ) (c : List ℕ) :
    date_candidates svc none w c = c := rfl

theorem ticker_candidates_single (svc : SearchService) (t : String)
    (rows : List ℕ) (hfind : dict_find svc.inv_ticker t = some rows) :
    ticker_candidates svc [t] [] = set_update [] rows := by
  unfold ticker_candidates
  simp only [List.foldl_cons, List.foldl_nil, hfind]

theorem candidate_pool_of_ne_nil (svc : SearchService) (tickers : List String)
    (pub : Option ℤ) (w : ℤ) (h : raw_candidates svc tickers pub w ≠ []) :
    candidate_pool svc tickers pub w = raw_candidates svc tickers pub w := by
  simp only [candidate_pool, if_neg h]

/-- Counterexample to claim C2: the ticker bucket `big_bucket` gives the
candidate pool `{1, ..., 5000, 32768}` of 5001 rows.  A 5001-element CPython
set has a 32768-slot hash table, so row 32768 occupies home slot 0 and is
iterated first: `list(candidates)[:5000]` keeps row 32768 and drops row
5000, so the retained candidates are not the 5000 smallest row indices of
the pool. -/
theorem get_candidate_rows_cap_cx :
    5000 < (candidate_pool svc_sparse ["BIG"] none 3).length
    ∧ 5000 ∈ candidate_pool svc_sparse ["BIG"] none 3
    ∧ get_candidate_rows svc_sparse ["BIG"] none 3 = List.range' 1 4999 ++ [32768]
    ∧ 32768 ∈ get_candidate_rows svc_sparse ["BIG"] none 3
    ∧ 5000 ∉ get_candidate_rows svc_sparse ["BIG"] none 3
    ∧ (5000 : ℕ) < 32768 := by
  have hbbs : List.Sorted (· < ·) big_bucket := by
    unfold big_bucket
    exact sorted_lt_range'_concat 1 5000 32768 (by norm_num)
  have hfind : dict_find svc_sparse.inv_ticker "BIG" = some big_bucket := rfl
  have hcanon : set_update [] big_bucket = big_bucket := set_update_nil_of_sorted hbbs
  have hraw : raw_candidates svc_sparse ["BIG"] none 3 = big_bucket := by
    unfold raw_candidates
    rw [date_candidates_none, ticker_candidates_single svc_sparse "BIG" big_bucket hfind,
      hcanon]
  have hbne : big_bucket ≠ [] := by
    unfold big_bucket
    simp
  have hpool : candidate_pool svc_sparse ["BIG"] none 3 = big_bucket := by
    rw [candidate_pool_of_ne_nil svc_sparse ["BIG"] none 3 (by rw [hraw]; exact hbne), hraw]
  have hblen : big_bucket.length = 5001 := by
    unfold big_bucket
    simp only [List.length_append, List.length_range', List.length_singleton]
  have hlen : 5000 < (candidate_pool svc_sparse ["BIG"] none 3).length := by
    rw [hpool, hblen]
    norm_num
  have htab : py_set_table_size 5001 = 32768 := py_set_table_size_5001
  have hiter : py_set_iter big_bucket = 32768 :: List.range' 1 5000 := by
    unfold py_set_iter
    rw [hblen, htab]
    apply List.eq_of_perm_of_sorted
      ((List.perm_insertionSort _ _).trans ?_) (List.sorted_insertionSort _ _) ?_
    · unfold big_bucket
      exact List.perm_append_singleton 32768 _
    · rw [List.sorted_cons]
      constructor
      · intro b hb
        have hbb := List.mem_range'_1.mp hb
        left
        rw [Nat.mod_self, Nat.mod_eq_of_lt (by omega : b < 32768)]
        omega
      · refine List.Pairwise.imp_of_mem ?_ (List.pairwise_lt_range' 1 5000)
        intro a b ha hb hab
        have ha2 := List.mem_range'_1.mp ha
        have hb2 := List.mem_range'_1.mp hb
        left
        rw [Nat.mod_eq_of_lt (by omega : a < 32768),
          Nat.mod_eq_of_lt (by omega : b < 32768)]
        exact hab
  have hsplit : List.range' 1 5000 = List.range' 1 4999 ++ List.range' 5000 1 := by
    have h5 := List.range'_append 1 4999 1 1
    norm_num at h5
    exact h5.symm
  have htake : (py_set_iter big_bucket).take 5000 = 32768 :: List.range' 1 4999 := by
    rw [hiter, show (5000 : ℕ) = 4999 + 1 from rfl, List.take_succ_cons, hsplit,
      List.take_left' (List.length_range' 1 1 4999)]
  have hres : get_candidate_rows svc_sparse ["BIG"] none 3
      = set_update [] ((py_set_iter (candidate_pool svc_sparse ["BIG"] none 3)).take 5000) := by
    simp only [get_candidate_rows, if_pos hlen]
    exact ((set_update_sorted _ [] List.sorted_nil).le_of_lt).insertionSort_eq
  have hfinal : set_update [] (32768 :: List.range' 1 4999)
      = List.range' 1 4999 ++ [32768] := by
    apply sorted_lt_canonical_eq (set_update_sorted _ [] List.sorted_nil)
      (sorted_lt_range'_concat 1 4999 32768 (by norm_num))
    intro a
    rw [set_update_nil_mem]
    simp only [List.mem_cons, List.mem_append, List.mem_nil_iff, or_false]
    exact Or.comm
  have hres2 : get_candidate_rows svc_sparse ["BIG"] none 3
      = List.range' 1 4999 ++ [32768] := by
    rw [hres, hpool, htake, hfinal]
  refine ⟨hlen, ?_, hres2, ?_, ?_, by norm_num⟩
  · rw [hpool]
    unfold big_bucket
    simp only [List.mem_append, List.mem_range'_1]
    left
    omega
  · rw [hres2]
    exact List.mem_append.mpr (.inr (List.mem_singleton.mpr rfl))
  · rw [hres2]
    simp only [List.mem_append, List.mem_range'_1, List.mem_singleton]
    omega

/-! ## Chunk-size bound lemmas (claim C3) -/

theorem tail_tokens_length_le (t : List Tok) (n : ℕ) :
    tok_len (tail_tokens t n) ≤ n := by
  simp only [tail_tokens, tok_len, List.length_drop]
  omega

theorem getLastD_mem {α : Type} [Inhabited α] :
    ∀ (l : List α) (d : α), l ≠ [] → l.getLastD d ∈ l := by
  intro l
  induction l with
  | nil => intro d hd; exact absurd rfl hd
  | cons a as ih =>
    intro d _
    rw [List.getLastD_cons]
    cases has : as with
    | nil => simp [List.getLastD]
    | cons b bs =>
      rw [← has]
      exact List.mem_cons_of_mem a (ih a (by simp [has]))

/-- The chunk-emission loop keeps every flushed chunk within `max` and
maintains `cur_tok` as the exact token length of the buffer, itself within
`max`, as long as every sentence fits in `max` minus the overlap carry. -/
theorem split_loop_bound (cfg : ChunkerConfig) (doc_id : String)
    (sents : List (List Tok)) :
    ∀ st : SegState,
      (∀ s ∈ sents, tok_len s + cfg.overlap ≤ cfg.max) →
      st.cur_tok = tok_len (join_ws st.cur) →
      st.cur_tok ≤ cfg.max →
      (∀ c ∈ st.chunks, tok_len c.text ≤ cfg.max) →
      (∀ c ∈ (cfg.split_loop doc_id sents st).chunks, tok_len c.text ≤ cfg.max)
      ∧ (cfg.split_loop doc_id sents st).cur_tok
          = tok_len (join_ws (cfg.split_loop doc_id sents st).cur)
      ∧ (cfg.split_loop doc_id sents st).cur_tok ≤ cfg.max := by
  induction sents with
  | nil =>
    intro st _ hcur hle hch
    exact ⟨hch, hcur, hle⟩
  | cons s rest ih =>
    intro st hs hcur hle hch
    have hsl : tok_len s + cfg.overlap ≤ cfg.max := hs s (List.mem_cons_self s rest)
    have hrest : ∀ t ∈ rest, tok_len t + cfg.overlap ≤ cfg.max :=
      fun t ht => hs t (List.mem_cons_of_mem s ht)
    simp only [ChunkerConfig.split_loop]
    split_ifs with hflush hov
    · -- flush, then seed with the overlap tail
      refine ih _ hrest ?_ ?_ ?_
      · simp [join_ws, tok_len]
      · have htl := tail_tokens_length_le (join_ws st.cur) cfg.overlap
        simp only [join_ws, tok_len] at *
        omega
      · intro c hc
        rcases List.mem_append.mp hc with hc | hc
        · exact hch c hc
        · rcases List.mem_singleton.mp hc with rfl
          simp only [ChunkerConfig.create_chunk]
          rw [← hcur]
          exact hle
    · -- flush with no overlap
      refine ih _ hrest ?_ ?_ ?_
      · simp [join_ws, tok_len]
      · dsimp only
        omega
      · intro c hc
        rcases List.mem_append.mp hc with hc | hc
        · exact hch c hc
        · rcases List.mem_singleton.mp hc with rfl
          simp only [ChunkerConfig.create_chunk]
          rw [← hcur]
          exact hle
    · -- append the sentence to the buffer
      refine ih _ hrest ?_ ?_ hch
      · simp [join_ws, tok_len, List.flatten_append, hcur]
      · dsimp only
        rcases Decidable.not_and_iff_or_not.mp hflush with hemp | hlt
        · have hnil : st.cur = [] := Decidable.not_not.mp hemp
          have h0 : st.cur_tok = 0 := by
            rw [hcur, hnil]
            rfl
          omega
        · omega

theorem renumber_chunks_mem (i : ℕ) (l : List Chunk) :
    ∀ c ∈ renumber_chunks i l, ∃ d ∈ l, c.text = d.text ∧ c.tokens = tok_len d.text := by
  induction l generalizing i with
  | nil => intro c hc; cases hc
  | cons a as ih =>
    intro c hc
    simp only [renumber_chunks, List.mem_cons] at hc
    rcases hc with rfl | hc
    · exact ⟨a, List.mem_cons_self a as, rfl, rfl⟩
    · obtain ⟨d, hd, h1, h2⟩ := ih (i + 1) c hc
      exact ⟨d, List.mem_cons_of_mem a hd, h1, h2⟩

theorem renumber_chunks_dropLast (i : ℕ) (l : List Chunk) :
    (renumber_chunks i l).dropLast = renumber_chunks i l.dropLast := by
  induction l generalizing i with
  | nil => rfl
  | cons a as ih =>
    cases as with
    | nil => rfl
    | cons b bs =>
      have ihs := ih (i + 1)
      show ({ a with chunk_index := i, tokens := tok_len a.text } ::
          renumber_chunks (i + 1) (b :: bs)).dropLast
        = renumber_chunks i (a :: (b :: bs).dropLast)
      rw [show renumber_chunks i (a :: (b :: bs).dropLast)
          = { a with chunk_index := i, tokens := tok_len a.text }
            :: renumber_chunks (i + 1) ((b :: bs).dropLast) from rfl]
      rw [← ihs]
      rw [show renumber_chunks (i + 1) (b :: bs)
          = { b with chunk_index := i + 1, tokens := tok_len b.text }
            :: renumber_chunks (i + 2) bs from rfl]
      rw [List.dropLast_cons₂]

theorem mem_dropLast_append_two {α : Type} (pre : List α) (x y c : α)
    (hc : c ∈ (pre ++ [x, y]).dropLast) : c ∈ pre ∨ c = x := by
  have hsplit : (pre ++ [x, y]).dropLast = pre ++ [x] := by
    rw [show pre ++ [x, y] = (pre ++ [x]) ++ [y] from by simp, List.dropLast_concat]
  rw [hsplit] at hc
  rcases List.mem_append.mp hc with h | h
  · exact .inl h
  · exact .inr (List.mem_singleton.mp h)

/-- The orphan-repair pass never grows any chunk other than the final one:
the donor shrinks, the merged chunk (when produced) is last, and all other
chunks pass through untouched. -/
theorem handle_orphan_dropLast (cfg : ChunkerConfig) (chunks : List Chunk)
    (h : ∀ c ∈ chunks, tok_len c.text ≤ cfg.max) :
    ∀ c ∈ (cfg.handle_orphan_chunks chunks).dropLast, tok_len c.text ≤ cfg.max := by
  intro c hc
  have hsub2 : chunks.dropLast.dropLast ⊆ chunks :=
    fun a ha => (List.dropLast_sublist chunks).subset
      ((List.dropLast_sublist chunks.dropLast).subset ha)
  simp only [ChunkerConfig.handle_orphan_chunks] at hc
  split_ifs at hc with h1 h2 h3 h4
  · exact h c ((List.dropLast_sublist chunks).subset hc)
  · rw [List.dropLast_concat] at hc
    exact h c (hsub2 hc)
  · rcases mem_dropLast_append_two _ _ _ c hc with hpre | rfl
    · exact h c (hsub2 hpre)
    · have hlen2 : 2 ≤ chunks.length := by omega
      have hne2 : chunks.dropLast ≠ [] := by
        intro hnil
        have hz : chunks.dropLast.length = 0 := by rw [hnil]; rfl
        rw [List.length_dropLast] at hz
        omega
      have hmem : chunks.dropLast.getLastD default ∈ chunks :=
        (List.dropLast_sublist chunks).subset (getLastD_mem chunks.dropLast default hne2)
      have hdle := h _ hmem
      simp only [tok_len] at hdle
      dsimp only
      simp only [tok_len, List.length_take]
      omega
  · exact h c ((List.dropLast_sublist chunks).subset hc)
  · exact h c ((List.dropLast_sublist chunks).subset hc)

/-- Renumbering after the orphan pass preserves the per-chunk bound on all
but the final chunk. -/
theorem le_max_renumber_orphan (cfg : ChunkerConfig) (L : List Chunk)
    (hL : ∀ c ∈ L, tok_len c.text ≤ cfg.max) :
    ∀ c ∈ (renumber_chunks 0 (cfg.handle_orphan_chunks L)).dropLast,
      c.tokens ≤ cfg.max := by
  intro c hc
  rw [renumber_chunks_dropLast] at hc
  obtain ⟨d, hd, _, htok⟩ := renumber_chunks_mem 0 _ c hc
  rw [htok]
  exact handle_orphan_dropLast cfg L hL d hd

/-- Counterexample to claim C3: with the admissible configuration
`overlap = 0 < min_tokens = 1 ≤ target = 1 ≤ max = 1`, four three-token
sentences produce four chunks of 3 tokens each — all four exceed
`max_tokens`, and none of them is an orphan-merge result, so more than a
single chunk violates the ceiling. -/
theorem split_text_max_tokens_cx :
    (cfg_tiny.overlap < cfg_tiny.min_tokens
      ∧ cfg_tiny.min_tokens ≤ cfg_tiny.target
      ∧ cfg_tiny.target ≤ cfg_tiny.max)
    ∧ (cfg_tiny.split_text [[0, 1, 2], [3, 4, 5], [6, 7, 8], [9, 10, 11]] "d").length = 4
    ∧ ((cfg_tiny.split_text [[0, 1, 2], [3, 4, 5], [6, 7, 8], [9, 10, 11]] "d").filter
          (fun c => cfg_tiny.max < c.tokens)).length = 4 := by
  decide

/-- Claim C3 (amended): for every configuration with
`overlap_tokens < min_tokens ≤ target_tokens ≤ max_tokens` and every sentence
sequence in which each sentence fits within `max_tokens - overlap_tokens`,
every chunk returned by `split_text` except possibly the final one (the chunk
the orphan-handling step may inflate by borrowing) has
`tokens ≤ max_tokens`.  The sentence-length hypothesis is forced by the
counterexample: the splitter never sub-splits a sentence, so an oversized
sentence yields an oversized chunk outside the orphan-merge step. -/
theorem split_text_le_max (cfg : ChunkerConfig) (sents : List (List Tok))
    (doc_id : String)
    (_hcfg : cfg.overlap < cfg.min_tokens ∧ cfg.min_tokens ≤ cfg.target
      ∧ cfg.target ≤ cfg.max)
    (hsents : ∀ s ∈ sents, tok_len s + cfg.overlap ≤ cfg.max) :
    ∀ c ∈ (cfg.split_text sents doc_id).dropLast, c.tokens ≤ cfg.max := by
  obtain ⟨hch, hcur, hle⟩ :=
    split_loop_bound cfg doc_id sents ⟨[], [], 0, 0⟩ hsents rfl (Nat.zero_le _)
      (fun c hc => absurd hc (List.not_mem_nil c))
  have hbase : ∀ c ∈ (if (cfg.split_loop doc_id sents ⟨[], [], 0, 0⟩).cur ≠ []
      then (cfg.split_loop doc_id sents ⟨[], [], 0, 0⟩).chunks
            ++ [cfg.create_chunk (join_ws (cfg.split_loop doc_id sents ⟨[], [], 0, 0⟩).cur)
                  doc_id (cfg.split_loop doc_id sents ⟨[], [], 0, 0⟩).idx]
      else (cfg.split_loop doc_id sents ⟨[], [], 0, 0⟩).chunks),
      tok_len c.text ≤ cfg.max := by
    intro c hc
    split_ifs at hc with hne
    · rcases List.mem_append.mp hc with hc | hc
      · exact hch c hc
      · rcases List.mem_singleton.mp hc with rfl
        simp only [ChunkerConfig.create_chunk]
        rw [← hcur]
        exact hle
    · exact hch c hc
  intro c hc
  exact le_max_renumber_orphan cfg _ hbase c hc

/-- Witness for the amended C3 at a concrete admissible configuration and
sentence sequence. -/
theorem split_text_le_max_witness :
    (cfg_wit.overlap < cfg_wit.min_tokens ∧ cfg_wit.min_tokens ≤ cfg_wit.target
      ∧ cfg_wit.target ≤ cfg_wit.max)
    ∧ (∀ s ∈ [[0, 1], [2], [3, 4]], tok_len s + cfg_wit.overlap ≤ cfg_wit.max)
    ∧ ∀ c ∈ (cfg_wit.split_text [[0, 1], [2], [3, 4]] "d").dropLast,
        c.tokens ≤ cfg_wit.max :=
  ⟨by decide, by decide,
   split_text_le_max cfg_wit [[0, 1], [2], [3, 4]] "d" (by decide) (by decide)⟩

end FinNews
